import Mathlib

/-!
Shallow embedding of the event-sourced issue-planner core:

* `InMemoryIssueRepository` (src/src/domain/interfaces/IssueRepository.ts,
  class in the same file): keyed maps of issues and comments.
* `InMemoryEventStore` (src/src/infrastructure/repositories/InMemoryEventStore.ts):
  append-only event list, replay loop, per-event dispatch.
* `IssueService` (src/src/services/IssueService.ts): command pipeline
  (`processIssueEvent`, `analyzeIssue`, `planIssue`, `addComment`).
* `RetryableLLMClient.retryOperation`
  (src/src/infrastructure/llm/RetryableLLMClient.ts): retry with backoff.

Modelling conventions:

* JavaScript `Map` objects are insertion-ordered association lists
  (`List (String × α)`); `Map.set` on a present key overwrites in place,
  on an absent key appends at the end, matching JS iteration order.
* ISO-8601 timestamp strings are modelled as natural-number instants
  (`Nat`); valid ISO-8601 UTC strings are ordered exactly like their
  epoch-millisecond values, so comparisons and `new Date().toISOString()`
  stamps translate directly.  Every call of `new Date().toISOString()`
  during one operation is modelled as one explicit `now : Nat` parameter.
* `uuidv4()` is modelled as a deterministic fresh-name counter threaded
  through the state (`uuidCtr`); no claim depends on the randomness of
  the generated ids, only on their existence.
* TypeScript `Partial<Issue>` payloads are records of `Option` fields
  where `none` means the property is absent from the object literal.
* Fallible methods (`throw`) return `Except String α`; the thrown value
  is the error message.
-/

namespace IssuesPlanner

/-- Priority values `'low' | 'medium' | 'high'` from src/src/domain/models/Issue.ts. -/
inductive Priority
  | low
  | medium
  | high
deriving DecidableEq, Repr

/-- Status values `'open' | 'in_progress' | 'closed'` from src/src/domain/models/Issue.ts. -/
inductive Status
  | open_
  | in_progress
  | closed
deriving DecidableEq, Repr

/-- `IssueComment` record from src/src/domain/models/Issue.ts. -/
structure IssueComment where
  id : String
  issueId : String
  content : String
  author : String
  createdAt : Nat
deriving DecidableEq, Repr

/-- `Issue` record from src/src/domain/models/Issue.ts; optional TS fields are `Option`s. -/
structure Issue where
  id : String
  title : String
  description : String
  author : String
  createdAt : Nat
  labels : Option (List String) := none
  assignedTo : Option String := none
  confidence : Option ℚ := none
  priority : Option Priority := none
  comments : Option (List IssueComment) := none
  plan : Option String := none
  status : Option Status := none
  updatedAt : Option Nat := none
deriving DecidableEq, Repr

/-- `IssueEvent` record (the create-command payload) from src/src/domain/models/Issue.ts. -/
structure IssueEvent where
  id : String
  title : String
  description : String
  author : String
  createdAt : Nat
deriving DecidableEq, Repr

/-- `issueEventToIssue` from src/src/domain/models/Issue.ts. -/
def issueEventToIssue (event : IssueEvent) : Issue :=
  { id := event.id
    title := event.title
    description := event.description
    author := event.author
    createdAt := event.createdAt
    comments := some []
    status := some Status.open_
    updatedAt := some event.createdAt }

/-- A TypeScript `Partial<Issue>` object literal: `none` = property absent.
The `priority` field is doubly optional because `LLMAnalysisResponse.priority`
is itself optional and the service spreads it into the literal, so the
property can be present with value `undefined` (`some none`), which on merge
clears the field. -/
structure PartialIssue where
  id : Option String := none
  title : Option String := none
  description : Option String := none
  author : Option String := none
  createdAt : Option Nat := none
  labels : Option (List String) := none
  assignedTo : Option String := none
  confidence : Option ℚ := none
  priority : Option (Option Priority) := none
  comments : Option (List IssueComment) := none
  plan : Option String := none
  status : Option Status := none
  updatedAt : Option Nat := none
deriving DecidableEq, Repr

/-- Payload variants stored in an event's `data : any` field, paired with the
event's `type` string.  The five tagged constructors cover exactly the
payload shapes the service itself produces for the closed `EventType`
enumeration; `other` covers events whose `type` lies outside it (the
`default` branch of the replay dispatch). -/
inductive EventBody
  | created (d : IssueEvent)
  | updated (d : PartialIssue)
  | analyzed (d : PartialIssue)
  | planned (plan : String)
  | commentAdded (d : IssueComment)
  | other (ty : String)
deriving DecidableEq, Repr

/-- `Event` record from src/src/domain/models/Issue.ts.  `timestamp` is
`Option Nat` because `saveEvent` guards `if (!event.timestamp)` and fills it;
events built by the service always carry `some` timestamps.  An empty `id`
models a falsy (absent) id. -/
structure Event where
  id : String
  body : EventBody
  timestamp : Option Nat
  issueId : String
deriving DecidableEq, Repr

/-- The `type` string of an event, as dispatched on by the replay `switch`. -/
def Event.type : Event → String
  | { body := EventBody.created _, .. } => "ISSUE_CREATED"
  | { body := EventBody.updated _, .. } => "ISSUE_UPDATED"
  | { body := EventBody.analyzed _, .. } => "ISSUE_ANALYZED"
  | { body := EventBody.planned _, .. } => "ISSUE_PLANNED"
  | { body := EventBody.commentAdded _, .. } => "COMMENT_ADDED"
  | { body := EventBody.other ty, .. } => ty

/-- JavaScript `Map.set`: overwrite in place if the key is present, else
append at the end (JS `Map`s iterate in insertion order). -/
def mapSet (k : String) (v : α) : List (String × α) → List (String × α)
  | [] => [(k, v)]
  | (k', v') :: rest => if k' = k then (k, v) :: rest else (k', v') :: mapSet k v rest

/-- JavaScript `Map.get` (with `undefined` as `none`). -/
def mapGet (k : String) : List (String × α) → Option α
  | [] => none
  | (k', v') :: rest => if k' = k then some v' else mapGet k rest

/-- JavaScript `Array.from(map.values())` in insertion order. -/
def mapValues (l : List (String × α)) : List α :=
  l.map Prod.snd

/-- Combined state of the wired system: the `InMemoryIssueRepository`
(`issues`, `comments` maps), the `InMemoryEventStore` (`events` array), the
uuid generator, and whether the service's optional `eventStore` field was
wired (in src/src/index.ts it is, by post-construction injection). -/
structure Sys where
  issues : List (String × Issue)
  comments : List (String × IssueComment)
  events : List Event
  uuidCtr : Nat
  hasEventStore : Bool
deriving DecidableEq, Repr

/-- One call of `uuidv4()`: a fresh deterministic name plus the bumped counter. -/
def freshUuid (s : Sys) : String × Sys :=
  ("uuid-" ++ toString s.uuidCtr, { s with uuidCtr := s.uuidCtr + 1 })

namespace InMemoryIssueRepository

/-- `InMemoryIssueRepository.findById`: look the issue up and attach its
comments (filtered from the comment map) on read. -/
def findById (s : Sys) (id : String) : Option Issue :=
  match mapGet id s.issues with
  | none => none
  | some issue =>
      some { issue with
              comments := some ((mapValues s.comments).filter (fun c => c.issueId = id)) }

/-- `InMemoryIssueRepository.save`: default an empty id to a fresh uuid,
default `status` to `'open'` and `comments` to `[]`, store a copy, return
the issue. -/
def save (s : Sys) (issue : Issue) : Sys × Issue :=
  let s1 := if issue.id = "" then (freshUuid s).2 else s
  let i1 := if issue.id = "" then { issue with id := (freshUuid s).1 } else issue
  let i2 := if i1.status = none then { i1 with status := some Status.open_ } else i1
  let i3 := if i2.comments = none then { i2 with comments := some [] } else i2
  ({ s1 with issues := mapSet i3.id i3 s1.issues }, i3)

/-- The spread `{...existingIssue, ...issueData, updatedAt: new Date().toISOString()}`
inside `InMemoryIssueRepository.update`: payload properties override existing
fields, then `updatedAt` is unconditionally overwritten with the current time. -/
def mergeIssue (ex : Issue) (d : PartialIssue) (now : Nat) : Issue :=
  { id := d.id.getD ex.id
    title := d.title.getD ex.title
    description := d.description.getD ex.description
    author := d.author.getD ex.author
    createdAt := d.createdAt.getD ex.createdAt
    labels := d.labels.or ex.labels
    assignedTo := d.assignedTo.or ex.assignedTo
    confidence := d.confidence.or ex.confidence
    priority := d.priority.getD ex.priority
    comments := d.comments.or ex.comments
    plan := d.plan.or ex.plan
    status := d.status.or ex.status
    updatedAt := some now }

/-- `InMemoryIssueRepository.update`: `null` when the id is absent; otherwise
merge, store, and return the merged issue with comments attached. -/
def update (s : Sys) (id : String) (d : PartialIssue) (now : Nat) : Sys × Option Issue :=
  match mapGet id s.issues with
  | none => (s, none)
  | some ex =>
      let updated := mergeIssue ex d now
      let s' := { s with issues := mapSet id updated s.issues }
      let cs := (mapValues s'.comments).filter (fun c => c.issueId = id)
      (s', some { updated with comments := some cs })

/-- `InMemoryIssueRepository.addComment`: default an empty comment id to a
fresh uuid, then throw if the referenced issue does not exist, else store the
comment.  The uuid is consumed before the existence check, as in the source. -/
def addComment (s : Sys) (c : IssueComment) : Sys × Except String IssueComment :=
  let s1 := if c.id = "" then (freshUuid s).2 else s
  let c1 := if c.id = "" then { c with id := (freshUuid s).1 } else c
  match mapGet c1.issueId s1.issues with
  | none => (s1, Except.error ("Issue with ID " ++ c1.issueId ++ " not found"))
  | some _ => ({ s1 with comments := mapSet c1.id c1 s1.comments }, Except.ok c1)

/-- `InMemoryIssueRepository.findCommentsByIssueId`. -/
def findCommentsByIssueId (s : Sys) (issueId : String) : List IssueComment :=
  (mapValues s.comments).filter (fun c => c.issueId = issueId)

end InMemoryIssueRepository

namespace InMemoryEventStore

/-- `InMemoryEventStore.saveEvent`: default an absent id to a fresh uuid and
an absent timestamp to the current time, push a copy onto the array, return
the stored event.  No sequence number of any kind is computed. -/
def saveEvent (s : Sys) (now : Nat) (e : Event) : Sys × Event :=
  let s1 := if e.id = "" then (freshUuid s).2 else s
  let e1 := if e.id = "" then { e with id := (freshUuid s).1 } else e
  let e2 := if e1.timestamp = none then { e1 with timestamp := some now } else e1
  ({ s1 with events := s1.events ++ [e2] }, e2)

/-- `InMemoryEventStore.getEvents`: a copy of the array, in append order. -/
def getEvents (s : Sys) : List Event :=
  s.events

/-- `InMemoryEventStore.getEventsByIssueId`. -/
def getEventsByIssueId (s : Sys) (issueId : String) : List Event :=
  s.events.filter (fun e => e.issueId = issueId)

end InMemoryEventStore

/-- `LLMAnalysisResponse` from the LLM client interface file. -/
structure LLMAnalysisResponse where
  labels : List String
  assignedTo : String
  confidence : ℚ
  priority : Option Priority
deriving DecidableEq, Repr

/-- `LLMIssuePlanResponse` from the LLM client interface file. -/
structure LLMIssuePlanResponse where
  plan : String
deriving DecidableEq, Repr

/-- Rendering of a `Priority` (or `'not set'`) inside the analysis system
comment built by `IssueService.analyzeIssue`. -/
def priorityText : Option Priority → String
  | some Priority.low => "low"
  | some Priority.medium => "medium"
  | some Priority.high => "high"
  | none => "not set"

/-- The `(confidence * 100).toFixed(0)` rendering in the analysis comment. -/
def confidenceText (q : ℚ) : String :=
  toString (round (q * 100) : ℤ)

/-- The system-comment text built by `IssueService.analyzeIssue`. -/
def analysisCommentText (resp : LLMAnalysisResponse) : String :=
  "Issue analyzed: Assigned to " ++ resp.assignedTo ++
    ", Labels: " ++ String.intercalate ", " resp.labels ++
    ", Priority: " ++ priorityText resp.priority ++
    ", Confidence: " ++ confidenceText resp.confidence ++ "%"

namespace IssueService

/-- The `ISSUE_UPDATED` payload built by `IssueService.processIssueEvent`
for an already-existing aggregate. -/
def updPayload (event : IssueEvent) (now : Nat) : PartialIssue :=
  { title := some event.title
    description := some event.description
    updatedAt := some now }

/-- `IssueService.processIssueEvent`: if the aggregate already exists, merge
the event's title/description into it (stamping `updatedAt`) and append an
`ISSUE_UPDATED` event; otherwise create the issue via `issueEventToIssue`,
save it and append an `ISSUE_CREATED` event.  The source never throws here;
the `as Issue` cast on the update result is modelled by returning the
`Option` (provably `some`, since the issue was just found).  `uuidv4()` is
called only inside the `if (this.eventStore)` guard, matching the source. -/
def processIssueEvent (s : Sys) (now : Nat) (event : IssueEvent) : Sys × Option Issue :=
  match InMemoryIssueRepository.findById s event.id with
  | some _ =>
      let r := InMemoryIssueRepository.update s event.id (updPayload event now) now
      let s2 :=
        if r.1.hasEventStore then
          (InMemoryEventStore.saveEvent (freshUuid r.1).2 now
            { id := (freshUuid r.1).1
              body := EventBody.updated (updPayload event now)
              timestamp := some now
              issueId := event.id }).1
        else r.1
      (s2, r.2)
  | none =>
      let r := InMemoryIssueRepository.save s (issueEventToIssue event)
      let s2 :=
        if r.1.hasEventStore then
          (InMemoryEventStore.saveEvent (freshUuid r.1).2 now
            { id := (freshUuid r.1).1
              body := EventBody.created event
              timestamp := some now
              issueId := event.id }).1
        else r.1
      (s2, some r.2)

/-- `IssueService.addComment`: throw a descriptive error when the issue does
not exist (before touching the comment store); otherwise build the comment
with a fresh uuid and the current time, store it, and append a
`COMMENT_ADDED` event carrying the comment. -/
def addComment (s : Sys) (now : Nat) (issueId content author : String) :
    Sys × Except String IssueComment :=
  match InMemoryIssueRepository.findById s issueId with
  | none => (s, Except.error ("Issue with ID " ++ issueId ++ " not found"))
  | some _ =>
      let comment : IssueComment :=
        { id := (freshUuid s).1, issueId := issueId, content := content, author := author
          createdAt := now }
      match InMemoryIssueRepository.addComment (freshUuid s).2 comment with
      | (s2, Except.error msg) => (s2, Except.error msg)
      | (s2, Except.ok saved) =>
          let s3 :=
            if s2.hasEventStore then
              (InMemoryEventStore.saveEvent (freshUuid s2).2 now
                { id := (freshUuid s2).1
                  body := EventBody.commentAdded comment
                  timestamp := some now
                  issueId := issueId }).1
            else s2
          (s3, Except.ok saved)

/-- `IssueService.analyzeIssue`: `null` (without calling the LLM client) when
the issue is absent; otherwise call the client (`llm` is the outcome that
call would produce; the returned `Nat` counts client invocations), merge the
analysis fields into the issue, append an `ISSUE_ANALYZED` event, and add a
system comment.  Client errors are logged and rethrown. -/
def analyzeIssue (s : Sys) (now : Nat) (llm : Except String LLMAnalysisResponse)
    (id : String) : Sys × Except String (Option Issue) × Nat :=
  match InMemoryIssueRepository.findById s id with
  | none => (s, Except.ok none, 0)
  | some _ =>
      match llm with
      | Except.error err => (s, Except.error err, 1)
      | Except.ok resp =>
          let r := InMemoryIssueRepository.update s id
            { labels := some resp.labels
              assignedTo := some resp.assignedTo
              confidence := some resp.confidence
              priority := some resp.priority
              updatedAt := some now } now
          let s2 :=
            if r.1.hasEventStore && r.2.isSome then
              (InMemoryEventStore.saveEvent (freshUuid r.1).2 now
                { id := (freshUuid r.1).1
                  body := EventBody.analyzed
                    { labels := some resp.labels
                      assignedTo := some resp.assignedTo
                      confidence := some resp.confidence
                      priority := some resp.priority
                      updatedAt := some now }
                  timestamp := some now
                  issueId := id }).1
            else r.1
          match addComment s2 now id (analysisCommentText resp) "system" with
          | (s3, Except.error msg) => (s3, Except.error msg, 1)
          | (s3, Except.ok _) => (s3, Except.ok r.2, 1)

/-- `IssueService.planIssue`: `null` (without calling the LLM client) when
the issue is absent; otherwise call the client, merge the plan, append an
`ISSUE_PLANNED` event carrying the plan response, and add the
`'Issue plan generated'` system comment. -/
def planIssue (s : Sys) (now : Nat) (llm : Except String LLMIssuePlanResponse)
    (id : String) : Sys × Except String (Option Issue) × Nat :=
  match InMemoryIssueRepository.findById s id with
  | none => (s, Except.ok none, 0)
  | some _ =>
      match llm with
      | Except.error err => (s, Except.error err, 1)
      | Except.ok resp =>
          let r := InMemoryIssueRepository.update s id
            { plan := some resp.plan
              updatedAt := some now } now
          let s2 :=
            if r.1.hasEventStore && r.2.isSome then
              (InMemoryEventStore.saveEvent (freshUuid r.1).2 now
                { id := (freshUuid r.1).1
                  body := EventBody.planned resp.plan
                  timestamp := some now
                  issueId := id }).1
            else r.1
          match addComment s2 now id "Issue plan generated" "system" with
          | (s3, Except.error msg) => (s3, Except.error msg, 1)
          | (s3, Except.ok _) => (s3, Except.ok r.2, 1)

end IssueService

namespace InMemoryEventStore

/-- `InMemoryEventStore.applyEvent`: the `switch (event.type)` dispatch.
`ISSUE_CREATED` goes through the full service pipeline; `ISSUE_UPDATED` and
`ISSUE_ANALYZED` spread the payload into `issueRepository.update`;
`ISSUE_PLANNED` updates only `plan`; `COMMENT_ADDED` calls
`issueRepository.addComment`, the one branch that can throw; unknown types
log a warning and fall through.  The thrown branch returns the pre-call
state: the repository throws before touching any store (its only earlier
write, defaulting an absent comment id, never reaches the maps). -/
def applyEvent (s : Sys) (now : Nat) (e : Event) : Except String Sys :=
  match e.body with
  | EventBody.created d => Except.ok (IssueService.processIssueEvent s now d).1
  | EventBody.updated d => Except.ok (InMemoryIssueRepository.update s e.issueId d now).1
  | EventBody.analyzed d => Except.ok (InMemoryIssueRepository.update s e.issueId d now).1
  | EventBody.planned p =>
      Except.ok (InMemoryIssueRepository.update s e.issueId { plan := some p } now).1
  | EventBody.commentAdded c =>
      match InMemoryIssueRepository.addComment s c with
      | (s', Except.ok _) => Except.ok s'
      | (_, Except.error msg) => Except.error msg
  | EventBody.other _ => Except.ok s

/-- The sort key `new Date(event.timestamp).getTime()`. -/
def tsKey (e : Event) : Nat :=
  e.timestamp.getD 0

/-- Stable insertion of an event after every earlier event with a key not
greater than its own. -/
def insertByTs (e : Event) : List Event → List Event
  | [] => [e]
  | f :: rest => if tsKey f ≤ tsKey e then f :: insertByTs e rest else e :: f :: rest

/-- The stable `Array.prototype.sort` by the timestamp comparator used in
`replayEvents` (JavaScript sort is stable, so events with equal timestamps
keep their append order). -/
def sortByTs (l : List Event) : List Event :=
  l.foldl (fun acc e => insertByTs e acc) []

/-- The per-event loop of `replayEvents`: each `applyEvent` call sits inside
`try ... catch`, so a failing event is logged and skipped and the loop
continues with the state unchanged by that event. -/
def replayGo (now : Nat) : List Event → Sys → Except String Sys
  | [], s => Except.ok s
  | e :: rest, s =>
      match applyEvent s now e with
      | Except.ok s' => replayGo now rest s'
      | Except.error _ => replayGo now rest s

/-- `InMemoryEventStore.replayEvents`: sort a copy of the stored events by
timestamp, then apply each in order with per-event catch.  The current
repository state is not cleared first (the source notes this gap). -/
def replayEvents (s : Sys) (now : Nat) : Except String Sys :=
  replayGo now (sortByTs s.events) s

end InMemoryEventStore

/-- `RetryConfig` from src/src/infrastructure/llm/RetryableLLMClient.ts;
delays are rationals since JavaScript numbers are not integral in general. -/
structure RetryConfig where
  maxRetries : Nat
  initialDelayMs : ℚ
  backoffFactor : ℚ
  maxDelayMs : ℚ
deriving DecidableEq, Repr

namespace RetryableLLMClient

/-- The attempt loop of `RetryableLLMClient.retryOperation`.  `op k` is the
outcome the wrapped operation produces when invoked as attempt `k`
(1-indexed); `remaining` counts the attempts still allowed including the
current one; `delay` is the current inter-attempt delay and `lastErr` the
`lastError` variable.  The result records the outcome, the number of times
the operation was invoked, and the delays waited in order.  The
`remaining = 0` case is the unreachable fall-through `throw lastError` after
the loop. -/
def retryAux (op : Nat → Except String α) (factor maxDelay : ℚ) :
    Nat → Nat → ℚ → String → Except String α × Nat × List ℚ
  | _, 0, _, lastErr => (Except.error lastErr, 0, [])
  | attempt, r + 1, delay, _ =>
      match op attempt with
      | Except.ok v => (Except.ok v, 1, [])
      | Except.error e =>
          if r = 0 then (Except.error e, 1, [])
          else
            let rest := retryAux op factor maxDelay (attempt + 1) r
              (min (delay * factor) maxDelay) e
            (rest.1, rest.2.1 + 1, delay :: rest.2.2)

/-- `RetryableLLMClient.retryOperation`: up to `maxRetries + 1` attempts,
starting at attempt 1 with delay `initialDelayMs` and `lastError`
initialized to `'Unknown error'`. -/
def retryOperation (cfg : RetryConfig) (op : Nat → Except String α) :
    Except String α × Nat × List ℚ :=
  retryAux op cfg.backoffFactor cfg.maxDelayMs 1 (cfg.maxRetries + 1)
    cfg.initialDelayMs "Unknown error"

end RetryableLLMClient

/-! ### Replay resilience and comment ordering helpers -/

/-- The replay loop never surfaces an error: every per-event failure is
caught and the loop continues with the previous state. -/
theorem replayGo_ok (now : Nat) :
    ∀ (l : List Event) (s : Sys), ∃ t, InMemoryEventStore.replayGo now l s = Except.ok t := by
  intro l
  induction l with
  | nil => intro s; exact ⟨s, rfl⟩
  | cons e rest ih =>
      intro s
      match h : InMemoryEventStore.applyEvent s now e with
      | Except.ok s' =>
          obtain ⟨t, ht⟩ := ih s'
          exact ⟨t, by simp only [InMemoryEventStore.replayGo, h]; exact ht⟩
      | Except.error msg =>
          obtain ⟨t, ht⟩ := ih s
          exact ⟨t, by simp only [InMemoryEventStore.replayGo, h]; exact ht⟩

/-! ### Helper lemmas about the map model -/

theorem mapGet_mapSet_self (k : String) (v : α) (l : List (String × α)) :
    mapGet k (mapSet k v l) = some v := by
  induction l with
  | nil => simp [mapSet, mapGet]
  | cons p rest ih =>
      obtain ⟨k', v'⟩ := p
      by_cases h : k' = k
      · simp [mapSet, mapGet, h]
      · simp [mapSet, mapGet, h, ih]

theorem mapGet_mapSet_ne (k k' : String) (v : α) (l : List (String × α)) (h : k' ≠ k) :
    mapGet k' (mapSet k v l) = mapGet k' l := by
  induction l with
  | nil => simp [mapSet, mapGet, Ne.symm h]
  | cons p rest ih =>
      obtain ⟨k₀, v₀⟩ := p
      by_cases h0 : k₀ = k
      · subst h0
        simp [mapSet, mapGet, Ne.symm h]
      · by_cases h1 : k₀ = k'
        · simp [mapSet, mapGet, h0, h1, h]
        · simp [mapSet, mapGet, h0, h1, ih]

theorem mapValues_mapSet_fresh (k : String) (v : α) (l : List (String × α))
    (h : mapGet k l = none) :
    mapValues (mapSet k v l) = mapValues l ++ [v] := by
  induction l with
  | nil => simp [mapSet, mapValues]
  | cons p rest ih =>
      obtain ⟨k₀, v₀⟩ := p
      by_cases h0 : k₀ = k
      · simp [mapGet, h0] at h
      · simp [mapGet, h0] at h
        simp [mapSet, mapValues, h0] at ih ⊢
        exact ih h

/-! ### C10: update always stamps updatedAt with the current clock -/

/-- C10: for every existing issue id and every partial-update payload,
`InMemoryIssueRepository.update` overwrites the stored issue's `updatedAt`
with the current wall-clock instant `now`.  The payload `d` is universally
quantified, so in particular a payload carrying its own `updatedAt` value
cannot restore a historical timestamp: the merged issue's `updatedAt` is
`some now` regardless. -/
theorem update_overwrites_updatedAt (s : Sys) (id : String) (d : PartialIssue) (now : Nat)
    (ex : Issue) (h : mapGet id s.issues = some ex) :
    (InMemoryIssueRepository.update s id d now).2 =
      some { InMemoryIssueRepository.mergeIssue ex d now with
              comments := some (InMemoryIssueRepository.findCommentsByIssueId s id) } ∧
    mapGet id (InMemoryIssueRepository.update s id d now).1.issues =
      some (InMemoryIssueRepository.mergeIssue ex d now) ∧
    (InMemoryIssueRepository.mergeIssue ex d now).updatedAt = some now := by
  refine ⟨?_, ?_, rfl⟩
  · simp [InMemoryIssueRepository.update, h, InMemoryIssueRepository.findCommentsByIssueId]
  · simp [InMemoryIssueRepository.update, h, mapGet_mapSet_self]

/-- A concrete issue used by witnesses, already carrying a historical
`updatedAt` of `some 1`. -/
def sampleIssue : Issue :=
  { id := "A", title := "t", description := "d", author := "a"
    createdAt := 0, updatedAt := some 1 }

/-- A concrete system state holding only `sampleIssue`. -/
def sampleSys : Sys :=
  { issues := [("A", sampleIssue)], comments := [], events := [], uuidCtr := 0
    hasEventStore := true }

/-- Witness for `update_overwrites_updatedAt`: a payload explicitly carrying
`updatedAt := some 1` still yields a stored `updatedAt` of `some 2`. -/
theorem update_overwrites_updatedAt_witness :
    mapGet "A" sampleSys.issues = some sampleIssue ∧
    (InMemoryIssueRepository.mergeIssue sampleIssue { updatedAt := some 1 } 2).updatedAt =
      some 2 := by
  constructor
  · rfl
  · exact (update_overwrites_updatedAt sampleSys "A" { updatedAt := some 1 } 2
      sampleIssue rfl).2.2

/-! ### C2: sequence numbering of appended events -/

/-- An event store with nothing in it, as a replay/append target. -/
def emptySys : Sys :=
  { issues := [], comments := [], events := [], uuidCtr := 0, hasEventStore := true }

/-- A sequence of `saveEvent` appends, keeping only the final state. -/
def appendAll (s : Sys) (now : Nat) (es : List Event) : Sys :=
  es.foldl (fun s e => (InMemoryEventStore.saveEvent s now e).1) s

/-- A sequence of `saveEvent` appends, also collecting the stored events each
call returns, in append order. -/
def appendAllOut (s : Sys) (now : Nat) : List Event → Sys × List Event
  | [] => (s, [])
  | e :: rest =>
      let p := InMemoryEventStore.saveEvent s now e
      let q := appendAllOut p.1 now rest
      (q.1, p.2 :: q.2)

/-- The claim as stated: some function of the stored event record (a
`sequence` value it allegedly carries) equals 1 + the event's array position
in `getEvents()`, for every sequence of appends into an empty store. -/
def SequenceAssignmentClaim : Prop :=
  ∃ seq : Event → Nat,
    ∀ (es : List Event) (i : Nat)
      (h : i < (InMemoryEventStore.getEvents (appendAll emptySys 0 es)).length),
      seq ((InMemoryEventStore.getEvents (appendAll emptySys 0 es)).get ⟨i, h⟩) = i + 1

/-- A concrete event with a nonempty id and a timestamp, so `saveEvent`
stores it verbatim. -/
def plainEvent : Event :=
  { id := "e", body := EventBody.other "X", timestamp := some 1, issueId := "A" }

/-- Counterexample to C2 as stated: the stored `Event` record carries no
sequence field at all (`saveEvent` computes none), so no value determined by
the stored record can match the array position.  Appending the same event
record twice stores two equal records at positions 0 and 1, forcing any such
`seq` to return both 1 and 2 on the same record. -/
theorem no_sequence_assignment : ¬ SequenceAssignmentClaim := by
  rintro ⟨seq, h⟩
  have h0 := h [plainEvent, plainEvent] 0 (by decide)
  have h1 := h [plainEvent, plainEvent] 1 (by decide)
  have e0 : (InMemoryEventStore.getEvents (appendAll emptySys 0 [plainEvent, plainEvent])).get
      ⟨0, by decide⟩ = plainEvent := by decide
  have e1 : (InMemoryEventStore.getEvents (appendAll emptySys 0 [plainEvent, plainEvent])).get
      ⟨1, by decide⟩ = plainEvent := by decide
  rw [e0] at h0
  rw [e1] at h1
  rw [h0] at h1
  exact absurd h1 (by decide)

/-- Stored events land at the end of the array, and the stored event
returned by `saveEvent` is exactly the appended one. -/
theorem saveEvent_events (s : Sys) (now : Nat) (e : Event) :
    (InMemoryEventStore.saveEvent s now e).1.events =
      s.events ++ [(InMemoryEventStore.saveEvent s now e).2] := by
  simp only [InMemoryEventStore.saveEvent, freshUuid]
  by_cases h1 : e.id = "" <;> by_cases h2 : e.timestamp = none <;> simp [h1, h2]

/-- C2 amended: `saveEvent` assigns no sequence field (the `Event` record has
none); instead the implicit sequence of a stored event is its array position:
after any sequence of appends, `getEvents()` is the prior contents followed
by the returned stored events in append order, so the i-th append's stored
event sits at array position (prior length + i) and positions are strictly
increasing in append order. -/
theorem append_positions_match (s : Sys) (now : Nat) (es : List Event) :
    InMemoryEventStore.getEvents (appendAllOut s now es).1 =
      InMemoryEventStore.getEvents s ++ (appendAllOut s now es).2 ∧
    (appendAllOut s now es).2.length = es.length ∧
    (appendAllOut s now es).1 = appendAll s now es := by
  induction es generalizing s with
  | nil => simp [appendAllOut, appendAll, InMemoryEventStore.getEvents]
  | cons e rest ih =>
      obtain ⟨ih1, ih2, ih3⟩ := ih (InMemoryEventStore.saveEvent s now e).1
      refine ⟨?_, ?_, ?_⟩
      · simp only [appendAllOut, InMemoryEventStore.getEvents] at ih1 ⊢
        rw [ih1]
        have := saveEvent_events s now e
        simp only [InMemoryEventStore.getEvents] at this ⊢
        rw [this, List.append_assoc]
        simp
      · simpa [appendAllOut] using ih2
      · simpa [appendAllOut, appendAll] using ih3

/-! ### C5: processing a Created event for an existing aggregate -/

/-- Generated uuids are never the empty string, so `saveEvent` keeps them. -/
theorem uuid_ne_empty (n : Nat) : "uuid-" ++ toString n ≠ "" := by
  intro h
  have hl := congrArg String.length h
  rw [String.length_append] at hl
  have h5 : ("uuid-" : String).length = 5 := rfl
  have h0 : ("" : String).length = 0 := rfl
  omega

/-- A create-command payload reusing the id of `sampleIssue`. -/
def sampleCreateEvent : IssueEvent :=
  { id := "A", title := "New title", description := "nd", author := "a", createdAt := 0 }

/-- Counterexample to C5 as stated: processing an issue-created event whose
aggregate id already exists does not fail with a conflict — it succeeds
(returns an issue) and silently modifies the existing aggregate, replacing
its title (here, `"t"` becomes `"New title"`). -/
theorem created_on_existing_succeeds :
    (IssueService.processIssueEvent sampleSys 7 sampleCreateEvent).2.isSome = true ∧
    (mapGet "A" (IssueService.processIssueEvent sampleSys 7 sampleCreateEvent).1.issues).map
        Issue.title = some "New title" ∧
    sampleIssue.title = "t" := by
  refine ⟨?_, ?_, rfl⟩ <;> decide

/-- C5 amended: for every issue-created event whose aggregate id already
exists, `processIssueEvent` does not fail: it merges the event's title and
description into the existing aggregate, stamps `updatedAt` with the current
instant, appends an `ISSUE_UPDATED` event when the event store is wired, and
returns the updated issue. -/
theorem processIssueEvent_updates_existing (s : Sys) (now : Nat) (ev : IssueEvent)
    (ex : Issue) (h : mapGet ev.id s.issues = some ex) :
    (IssueService.processIssueEvent s now ev).2 =
      some { InMemoryIssueRepository.mergeIssue ex (IssueService.updPayload ev now) now with
              comments := some (InMemoryIssueRepository.findCommentsByIssueId s ev.id) } ∧
    mapGet ev.id (IssueService.processIssueEvent s now ev).1.issues =
      some (InMemoryIssueRepository.mergeIssue ex (IssueService.updPayload ev now) now) ∧
    (InMemoryIssueRepository.mergeIssue ex (IssueService.updPayload ev now) now).title =
      ev.title ∧
    (InMemoryIssueRepository.mergeIssue ex (IssueService.updPayload ev now) now).description =
      ev.description ∧
    (InMemoryIssueRepository.mergeIssue ex (IssueService.updPayload ev now) now).updatedAt =
      some now ∧
    (IssueService.processIssueEvent s now ev).1.events =
      s.events ++
        (if s.hasEventStore then
          [{ id := "uuid-" ++ toString s.uuidCtr
             body := EventBody.updated (IssueService.updPayload ev now)
             timestamp := some now
             issueId := ev.id }]
        else []) := by
  have hfind : InMemoryIssueRepository.findById s ev.id =
      some { ex with
              comments := some ((mapValues s.comments).filter (fun c => c.issueId = ev.id)) } := by
    simp [InMemoryIssueRepository.findById, h]
  refine ⟨?_, ?_, rfl, rfl, rfl, ?_⟩
  · simp [IssueService.processIssueEvent, hfind, InMemoryIssueRepository.update, h,
      InMemoryIssueRepository.findCommentsByIssueId]
  · by_cases hs : s.hasEventStore <;>
      simp [IssueService.processIssueEvent, hfind, InMemoryIssueRepository.update, h,
        InMemoryEventStore.saveEvent, freshUuid, uuid_ne_empty, hs, mapGet_mapSet_self]
  · by_cases hs : s.hasEventStore <;>
      simp [IssueService.processIssueEvent, hfind, InMemoryIssueRepository.update, h,
        InMemoryEventStore.saveEvent, freshUuid, uuid_ne_empty, hs]

/-- Witness for `processIssueEvent_updates_existing` at `sampleSys`. -/
theorem processIssueEvent_updates_existing_witness :
    mapGet "A" sampleSys.issues = some sampleIssue ∧
    (InMemoryIssueRepository.mergeIssue sampleIssue
        (IssueService.updPayload sampleCreateEvent 7) 7).title = sampleCreateEvent.title := by
  refine ⟨rfl, ?_⟩
  have h := processIssueEvent_updates_existing sampleSys 7 sampleCreateEvent sampleIssue rfl
  exact h.2.2.1

/-! ### C6: replay appends new events to the log -/

/-- A stored `ISSUE_CREATED` event for a not-yet-existing issue `"A"`. -/
def createdEventA : Event :=
  { id := "e1"
    body := EventBody.created
      { id := "A", title := "T", description := "D", author := "au", createdAt := 0 }
    timestamp := some 0
    issueId := "A" }

/-- An event store holding exactly `createdEventA`, with an empty issue
repository and the service's event store wired (as src/src/index.ts wires it). -/
def oneCreatedSys : Sys :=
  { issues := [], comments := [], events := [createdEventA], uuidCtr := 0
    hasEventStore := true }

/-- C6 failing run: replaying a log holding one `ISSUE_CREATED` event does
not leave the stored event sequence unchanged — `applyEvent` routes the
event through `IssueService.processIssueEvent`, which appends a fresh
`ISSUE_CREATED` event (new id, replay-time timestamp) to the same log, so
the log grows from 1 to 2 events. -/
theorem replay_mutates_event_log :
    (InMemoryEventStore.replayEvents oneCreatedSys 10).toOption.map (fun t => t.events) =
      some (oneCreatedSys.events ++
        [{ id := "uuid-0", body := createdEventA.body, timestamp := some 10, issueId := "A" }]) ∧
    oneCreatedSys.events.length = 1 := by
  refine ⟨?_, rfl⟩
  decide

/-! ### C3 and C4: retry counts, error propagation and backoff delays -/

namespace RetryableLLMClient

/-- One-step unfolding: a successful attempt ends the loop at once. -/
theorem retryAux_ok_step (op : Nat → Except String α) (factor maxDelay : ℚ)
    (attempt r : Nat) (delay : ℚ) (lastErr : String) (v : α)
    (hok : op attempt = Except.ok v) :
    retryAux op factor maxDelay attempt (r + 1) delay lastErr = (Except.ok v, 1, []) := by
  simp [retryAux, hok]

/-- One-step unfolding: a failure on the final allowed attempt surfaces that
attempt's error. -/
theorem retryAux_fail_last (op : Nat → Except String α) (factor maxDelay : ℚ)
    (attempt : Nat) (delay : ℚ) (lastErr e : String)
    (he : op attempt = Except.error e) :
    retryAux op factor maxDelay attempt 1 delay lastErr = (Except.error e, 1, []) := by
  simp [retryAux, he]

/-- One-step unfolding: a failure with further attempts left waits `delay`
and recurses with the backed-off delay. -/
theorem retryAux_fail_step (op : Nat → Except String α) (factor maxDelay : ℚ)
    (attempt r : Nat) (delay : ℚ) (lastErr e : String)
    (he : op attempt = Except.error e) (hr : r ≠ 0) :
    retryAux op factor maxDelay attempt (r + 1) delay lastErr =
      ((retryAux op factor maxDelay (attempt + 1) r (min (delay * factor) maxDelay) e).1,
       (retryAux op factor maxDelay (attempt + 1) r (min (delay * factor) maxDelay) e).2.1 + 1,
       delay ::
         (retryAux op factor maxDelay (attempt + 1) r (min (delay * factor) maxDelay) e).2.2) := by
  obtain ⟨r', rfl⟩ : ∃ r', r = r' + 1 := ⟨r - 1, by omega⟩
  conv_lhs => rw [retryAux]
  rw [he]
  simp

/-- If every attempt from `attempt` through `attempt + r` fails, the loop
runs all `r + 1` remaining attempts and surfaces the outcome of the last
one unchanged. -/
theorem retryAux_all_fail (op : Nat → Except String α) (factor maxDelay : ℚ) :
    ∀ (r attempt : Nat) (delay : ℚ) (lastErr : String),
      (∀ j, attempt ≤ j → j ≤ attempt + r → ∃ e, op j = Except.error e) →
      (retryAux op factor maxDelay attempt (r + 1) delay lastErr).1 = op (attempt + r) ∧
      (retryAux op factor maxDelay attempt (r + 1) delay lastErr).2.1 = r + 1 := by
  intro r
  induction r with
  | zero =>
      intro attempt delay lastErr hfail
      obtain ⟨e, he⟩ := hfail attempt le_rfl (by omega)
      rw [retryAux_fail_last op factor maxDelay attempt delay lastErr e he]
      simp [he]
  | succ r ih =>
      intro attempt delay lastErr hfail
      obtain ⟨e, he⟩ := hfail attempt le_rfl (by omega)
      have ihh := ih (attempt + 1) (min (delay * factor) maxDelay) e
        (fun j h1 h2 => hfail j (by omega) (by omega))
      have harr : attempt + 1 + r = attempt + (r + 1) := by omega
      rw [harr] at ihh
      rw [retryAux_fail_step op factor maxDelay attempt (r + 1) delay lastErr e he
        (Nat.succ_ne_zero r)]
      exact ⟨ihh.1, by rw [ihh.2]⟩

/-- If attempts `attempt` through `attempt + j - 1` fail and attempt
`attempt + j` succeeds within the allowed budget, the loop stops there with
the success value after exactly `j + 1` invocations. -/
theorem retryAux_succeeds (op : Nat → Except String α) (factor maxDelay : ℚ) (v : α) :
    ∀ (j r attempt : Nat) (delay : ℚ) (lastErr : String), j ≤ r →
      (∀ i, attempt ≤ i → i < attempt + j → ∃ e, op i = Except.error e) →
      op (attempt + j) = Except.ok v →
      (retryAux op factor maxDelay attempt (r + 1) delay lastErr).1 = Except.ok v ∧
      (retryAux op factor maxDelay attempt (r + 1) delay lastErr).2.1 = j + 1 := by
  intro j
  induction j with
  | zero =>
      intro r attempt delay lastErr _ _ hok
      simp only [Nat.add_zero] at hok
      simp [retryAux, hok]
  | succ j ih =>
      intro r attempt delay lastErr hjr hfail hok
      obtain ⟨r', rfl⟩ : ∃ r', r = r' + 1 := ⟨r - 1, by omega⟩
      obtain ⟨e, he⟩ := hfail attempt le_rfl (by omega)
      have ihh := ih r' (attempt + 1) (min (delay * factor) maxDelay) e (by omega)
        (fun i h1 h2 => hfail i (by omega) (by omega))
        (by rw [show attempt + 1 + j = attempt + (j + 1) by omega]; exact hok)
      rw [retryAux_fail_step op factor maxDelay attempt (r' + 1) delay lastErr e he
        (Nat.succ_ne_zero r')]
      exact ⟨ihh.1, by rw [ihh.2]⟩

/-- C3: for every retry configuration with `maxRetries = n`, (a) if the
wrapped operation fails on every attempt, `retryOperation` invokes it
exactly `n + 1` times and the outcome surfaced to the caller is exactly the
outcome of the `(n+1)`-th attempt — the last error, not a wrapped or
aggregated one; (b) if the operation first succeeds at attempt `k` (within
the budget), it is invoked exactly `k` times and its result is returned. -/
theorem retry_attempt_counts (cfg : RetryConfig) (op : Nat → Except String α) :
    ((∀ k, 1 ≤ k → k ≤ cfg.maxRetries + 1 → ∃ e, op k = Except.error e) →
      (retryOperation cfg op).1 = op (cfg.maxRetries + 1) ∧
      (retryOperation cfg op).2.1 = cfg.maxRetries + 1) ∧
    (∀ k v, 1 ≤ k → k ≤ cfg.maxRetries + 1 →
      (∀ j, 1 ≤ j → j < k → ∃ e, op j = Except.error e) → op k = Except.ok v →
      (retryOperation cfg op).1 = Except.ok v ∧ (retryOperation cfg op).2.1 = k) := by
  constructor
  · intro hfail
    have h := retryAux_all_fail op cfg.backoffFactor cfg.maxDelayMs cfg.maxRetries 1
      cfg.initialDelayMs "Unknown error"
      (fun j h1 h2 => hfail j h1 (by omega))
    rw [show 1 + cfg.maxRetries = cfg.maxRetries + 1 by omega] at h
    exact ⟨h.1, h.2⟩
  · intro k v hk1 hk2 hfail hok
    have h := retryAux_succeeds op cfg.backoffFactor cfg.maxDelayMs v (k - 1) cfg.maxRetries 1
      cfg.initialDelayMs "Unknown error" (by omega)
      (fun i h1 h2 => hfail i h1 (by omega))
      (by rw [show 1 + (k - 1) = k by omega]; exact hok)
    rw [show k - 1 + 1 = k by omega] at h
    exact h

/-- An operation that fails on every attempt, tagging the attempt number. -/
def alwaysFail : Nat → Except String Nat :=
  fun k => Except.error ("attempt-" ++ toString k)

/-- The production default retry configuration (with `maxRetries = 2` as in
the spec's exhaustion property). -/
def cfgTwoRetries : RetryConfig :=
  { maxRetries := 2, initialDelayMs := 500, backoffFactor := 2, maxDelayMs := 10000 }

/-- Witness for `retry_attempt_counts`: with `maxRetries = 2`, an operation
failing on every attempt is invoked exactly 3 times and the surfaced error
is the third attempt's error. -/
theorem retry_attempt_counts_witness :
    (retryOperation cfgTwoRetries alwaysFail).1 = Except.error "attempt-3" ∧
    (retryOperation cfgTwoRetries alwaysFail).2.1 = 3 := by
  have h := (retry_attempt_counts cfgTwoRetries alwaysFail).1
    (fun k _ _ => ⟨"attempt-" ++ toString k, rfl⟩)
  refine ⟨?_, h.2⟩
  rw [h.1]
  rfl

/-- The delay value entering loop iteration `n` (0-indexed over retries),
starting from `d`: each failed attempt replaces the delay with
`min (delay * backoffFactor) maxDelayMs` for the next one. -/
def delayAt (factor maxDelay : ℚ) (d : ℚ) : Nat → ℚ
  | 0 => d
  | n + 1 => delayAt factor maxDelay (min (d * factor) maxDelay) n

/-- Unfolding `delayAt` at the back instead of the front. -/
theorem delayAt_succ (factor maxDelay : ℚ) :
    ∀ (n : Nat) (d : ℚ),
      delayAt factor maxDelay d (n + 1) =
        min (delayAt factor maxDelay d n * factor) maxDelay := by
  intro n
  induction n with
  | zero => intro d; rfl
  | succ n ih =>
      intro d
      have hL : delayAt factor maxDelay d (n + 1 + 1) =
          delayAt factor maxDelay (min (d * factor) maxDelay) (n + 1) := rfl
      have hR : delayAt factor maxDelay d (n + 1) =
          delayAt factor maxDelay (min (d * factor) maxDelay) n := rfl
      rw [hL, ih (min (d * factor) maxDelay), hR]

/-- Closed form of the delay schedule under the Retry Policy constraints
(`backoffFactor ≥ 1`, `0 < initialDelayMs ≤ maxDelayMs`). -/
theorem delayAt_closed (factor maxDelay d : ℚ) (hf : 1 ≤ factor) (hd : 0 < d)
    (hdm : d ≤ maxDelay) :
    ∀ n : Nat, delayAt factor maxDelay d n = min (d * factor ^ n) maxDelay := by
  intro n
  induction n with
  | zero =>
      simp [delayAt, min_eq_left hdm]
  | succ n ih =>
      rw [delayAt_succ, ih]
      rcases le_total (d * factor ^ n) maxDelay with hle | hle
      · rw [min_eq_left hle, pow_succ, ← mul_assoc]
      · have hm0 : (0 : ℚ) < maxDelay := lt_of_lt_of_le hd hdm
        have hpow : (0 : ℚ) < d * factor ^ n :=
          mul_pos hd (pow_pos (lt_of_lt_of_le one_pos hf) n)
        have h1 : maxDelay ≤ maxDelay * factor := le_mul_of_one_le_right (le_of_lt hm0) hf
        have h2 : d * factor ^ n ≤ d * factor ^ (n + 1) := by
          rw [pow_succ, ← mul_assoc]
          exact le_mul_of_one_le_right (le_of_lt hpow) hf
        rw [min_eq_right hle, min_eq_right h1, min_eq_right (le_trans hle h2)]

/-- Every delay recorded by the loop matches `delayAt` from the entry delay. -/
theorem retryAux_delays (op : Nat → Except String α) (factor maxDelay : ℚ) :
    ∀ (r attempt : Nat) (d : ℚ) (lastErr : String) (i : Nat),
      i < (retryAux op factor maxDelay attempt r d lastErr).2.2.length →
      (retryAux op factor maxDelay attempt r d lastErr).2.2.getD i 0 =
        delayAt factor maxDelay d i := by
  intro r
  induction r with
  | zero =>
      intro attempt d lastErr i h
      simp [retryAux] at h
  | succ r ih =>
      intro attempt d lastErr i h
      match hop : op attempt with
      | Except.ok v =>
          rw [retryAux_ok_step op factor maxDelay attempt r d lastErr v hop] at h
          simp at h
      | Except.error e =>
          match r with
          | 0 =>
              rw [retryAux_fail_last op factor maxDelay attempt d lastErr e hop] at h
              simp at h
          | r' + 1 =>
              have hstep := congrArg (fun p => p.2.2)
                (retryAux_fail_step op factor maxDelay attempt (r' + 1) d lastErr e
                  hop (Nat.succ_ne_zero r'))
              simp only at hstep
              rw [hstep] at h ⊢
              match i with
              | 0 => rfl
              | i + 1 =>
                  have h' : i < (retryAux op factor maxDelay (attempt + 1) (r' + 1)
                      (min (d * factor) maxDelay) e).2.2.length := by
                    simpa using h
                  have hih := ih (attempt + 1) (min (d * factor) maxDelay) e i h'
                  simp only [List.getD_cons_succ]
                  rw [hih]
                  rfl

/-- C4: under the Retry Policy constraints (`backoffFactor ≥ 1`,
`0 < initialDelayMs ≤ maxDelayMs`), the delay waited before the k-th retry
(k ≥ 1; index `i = k - 1` below) equals
`min (initialDelayMs * backoffFactor ^ (k-1), maxDelayMs)`; and with
`maxRetries = 0` a failing call waits no delay at all before the failure
propagates. -/
theorem backoff_delay_schedule (cfg : RetryConfig) (op : Nat → Except String α)
    (hf : 1 ≤ cfg.backoffFactor) (hi : 0 < cfg.initialDelayMs)
    (hm : cfg.initialDelayMs ≤ cfg.maxDelayMs) :
    (∀ i : Nat, i < (retryOperation cfg op).2.2.length →
      (retryOperation cfg op).2.2.getD i 0 =
        min (cfg.initialDelayMs * cfg.backoffFactor ^ i) cfg.maxDelayMs) ∧
    (cfg.maxRetries = 0 → (retryOperation cfg op).2.2 = []) := by
  constructor
  · intro i h
    rw [retryOperation] at h ⊢
    rw [retryAux_delays op cfg.backoffFactor cfg.maxDelayMs (cfg.maxRetries + 1) 1
      cfg.initialDelayMs "Unknown error" i h]
    exact delayAt_closed cfg.backoffFactor cfg.maxDelayMs cfg.initialDelayMs hf hi hm i
  · intro h0
    rw [retryOperation, h0]
    match hop : op 1 with
    | Except.ok v =>
        rw [retryAux_ok_step op cfg.backoffFactor cfg.maxDelayMs 1 0 cfg.initialDelayMs
          "Unknown error" v hop]
    | Except.error e =>
        rw [retryAux_fail_last op cfg.backoffFactor cfg.maxDelayMs 1 cfg.initialDelayMs
          "Unknown error" e hop]

/-- Witness for `backoff_delay_schedule` at the production-default backoff
parameters with an always-failing operation: the delay before the second
retry (index 1) is the closed-form `min (500 * 2 ^ 1) 10000`. -/
theorem backoff_delay_schedule_witness :
    (1 : ℚ) ≤ cfgTwoRetries.backoffFactor ∧
    (0 : ℚ) < cfgTwoRetries.initialDelayMs ∧
    cfgTwoRetries.initialDelayMs ≤ cfgTwoRetries.maxDelayMs ∧
    (1 < (retryOperation cfgTwoRetries alwaysFail).2.2.length →
      (retryOperation cfgTwoRetries alwaysFail).2.2.getD 1 0 =
        min (cfgTwoRetries.initialDelayMs * cfgTwoRetries.backoffFactor ^ 1)
          cfgTwoRetries.maxDelayMs) ∧
    1 < (retryOperation cfgTwoRetries alwaysFail).2.2.length := by
  refine ⟨by norm_num [cfgTwoRetries], by norm_num [cfgTwoRetries],
    by norm_num [cfgTwoRetries],
    (backoff_delay_schedule cfgTwoRetries alwaysFail (by norm_num [cfgTwoRetries])
      (by norm_num [cfgTwoRetries]) (by norm_num [cfgTwoRetries])).1 1, ?_⟩
  have hcount := (retry_attempt_counts cfgTwoRetries alwaysFail).1
    (fun k _ _ => ⟨"attempt-" ++ toString k, rfl⟩)
  have hlen : (retryOperation cfgTwoRetries alwaysFail).2.2.length = 2 := by
    rw [retryOperation]
    simp only [cfgTwoRetries]
    rw [retryAux_fail_step alwaysFail 2 10000 1 2 500 "Unknown error" "attempt-1" rfl
      (by omega)]
    rw [retryAux_fail_step alwaysFail 2 10000 2 1 _ "attempt-1" "attempt-2" rfl (by omega)]
    rw [retryAux_fail_last alwaysFail 2 10000 3 _ "attempt-2" "attempt-3" rfl]
    rfl
  omega

end RetryableLLMClient

/-! ### C1: replay determinism up to the clock -/

/-- Forget an issue's `updatedAt` field. -/
def Issue.eraseU (i : Issue) : Issue :=
  { i with updatedAt := none }

/-- Forget a partial payload's `updatedAt` property. -/
def PartialIssue.eraseU (d : PartialIssue) : PartialIssue :=
  { d with updatedAt := none }

/-- Forget every stored issue's `updatedAt` field. -/
def eraseIssues (l : List (String × Issue)) : List (String × Issue) :=
  l.map (fun p => (p.1, p.2.eraseU))

/-- Two system states agreeing on everything the replayed aggregate state
depends on, except the `updatedAt` stamps: the issue map modulo `updatedAt`,
the comment map, the uuid counter, and the event-store wiring flag.  The
event log is deliberately unconstrained. -/
def SysRel (s₁ s₂ : Sys) : Prop :=
  eraseIssues s₁.issues = eraseIssues s₂.issues ∧
  s₁.comments = s₂.comments ∧
  s₁.uuidCtr = s₂.uuidCtr ∧
  s₁.hasEventStore = s₂.hasEventStore

theorem mapGet_eraseIssues (k : String) (l : List (String × Issue)) :
    mapGet k (eraseIssues l) = (mapGet k l).map Issue.eraseU := by
  induction l with
  | nil => rfl
  | cons p rest ih =>
      obtain ⟨k₀, v₀⟩ := p
      by_cases h0 : k₀ = k
      · simp [eraseIssues, mapGet, h0]
      · simp only [eraseIssues, mapGet, List.map_cons, h0, if_false]
        simpa [eraseIssues] using ih

theorem eraseIssues_mapSet (k : String) (v : Issue) (l : List (String × Issue)) :
    eraseIssues (mapSet k v l) = mapSet k v.eraseU (eraseIssues l) := by
  induction l with
  | nil => rfl
  | cons p rest ih =>
      obtain ⟨k₀, v₀⟩ := p
      by_cases h0 : k₀ = k
      · simp [eraseIssues, mapSet, h0]
      · simp only [eraseIssues, mapSet, List.map_cons, h0, if_false]
        simpa [eraseIssues] using ih

/-- The merged issue modulo `updatedAt` depends only on the existing issue
and the payload modulo `updatedAt` — not on the clock. -/
theorem mergeIssue_eraseU (ex₁ ex₂ : Issue) (d₁ d₂ : PartialIssue) (n₁ n₂ : Nat)
    (hex : ex₁.eraseU = ex₂.eraseU) (hd : d₁.eraseU = d₂.eraseU) :
    (InMemoryIssueRepository.mergeIssue ex₁ d₁ n₁).eraseU =
      (InMemoryIssueRepository.mergeIssue ex₂ d₂ n₂).eraseU := by
  cases ex₁; cases ex₂; cases d₁; cases d₂
  simp only [Issue.eraseU, PartialIssue.eraseU, InMemoryIssueRepository.mergeIssue,
    Issue.mk.injEq, PartialIssue.mk.injEq] at hex hd ⊢
  simp_all

theorem freshUuid_rel (s₁ s₂ : Sys) (hrel : SysRel s₁ s₂) :
    SysRel (freshUuid s₁).2 (freshUuid s₂).2 ∧ (freshUuid s₁).1 = (freshUuid s₂).1 := by
  obtain ⟨hI, hC, hU, hH⟩ := hrel
  exact ⟨⟨hI, hC, by simp [freshUuid, hU], hH⟩, by simp [freshUuid, hU]⟩

theorem update_rel (s₁ s₂ : Sys) (id : String) (d₁ d₂ : PartialIssue) (n₁ n₂ : Nat)
    (hrel : SysRel s₁ s₂) (hd : d₁.eraseU = d₂.eraseU) :
    SysRel (InMemoryIssueRepository.update s₁ id d₁ n₁).1
      (InMemoryIssueRepository.update s₂ id d₂ n₂).1 := by
  obtain ⟨hI, hC, hU, hH⟩ := hrel
  have hmap : (mapGet id s₁.issues).map Issue.eraseU =
      (mapGet id s₂.issues).map Issue.eraseU := by
    rw [← mapGet_eraseIssues, ← mapGet_eraseIssues, hI]
  match h₁ : mapGet id s₁.issues, h₂ : mapGet id s₂.issues with
  | none, none =>
      have e₁ : (InMemoryIssueRepository.update s₁ id d₁ n₁).1 = s₁ := by
        simp [InMemoryIssueRepository.update, h₁]
      have e₂ : (InMemoryIssueRepository.update s₂ id d₂ n₂).1 = s₂ := by
        simp [InMemoryIssueRepository.update, h₂]
      rw [e₁, e₂]
      exact ⟨hI, hC, hU, hH⟩
  | none, some ex₂ => rw [h₁, h₂] at hmap; simp at hmap
  | some ex₁, none => rw [h₁, h₂] at hmap; simp at hmap
  | some ex₁, some ex₂ =>
      rw [h₁, h₂] at hmap
      have hee : ex₁.eraseU = ex₂.eraseU := by simpa using hmap
      have e₁ : (InMemoryIssueRepository.update s₁ id d₁ n₁).1 =
          { s₁ with issues :=
              mapSet id (InMemoryIssueRepository.mergeIssue ex₁ d₁ n₁) s₁.issues } := by
        simp [InMemoryIssueRepository.update, h₁]
      have e₂ : (InMemoryIssueRepository.update s₂ id d₂ n₂).1 =
          { s₂ with issues :=
              mapSet id (InMemoryIssueRepository.mergeIssue ex₂ d₂ n₂) s₂.issues } := by
        simp [InMemoryIssueRepository.update, h₂]
      rw [e₁, e₂]
      refine ⟨?_, hC, hU, hH⟩
      show eraseIssues (mapSet id (InMemoryIssueRepository.mergeIssue ex₁ d₁ n₁) s₁.issues) =
        eraseIssues (mapSet id (InMemoryIssueRepository.mergeIssue ex₂ d₂ n₂) s₂.issues)
      rw [eraseIssues_mapSet, eraseIssues_mapSet, hI,
        mergeIssue_eraseU ex₁ ex₂ d₁ d₂ n₁ n₂ hee hd]

theorem save_rel (s₁ s₂ : Sys) (i : Issue) (hrel : SysRel s₁ s₂) :
    SysRel (InMemoryIssueRepository.save s₁ i).1 (InMemoryIssueRepository.save s₂ i).1 := by
  obtain ⟨hI, hC, hU, hH⟩ := hrel
  have hu1 : (freshUuid s₁).1 = (freshUuid s₂).1 := by simp [freshUuid, hU]
  by_cases h0 : i.id = ""
  · refine ⟨?_, ?_, ?_, ?_⟩ <;>
      simp [InMemoryIssueRepository.save, h0, freshUuid, hU, hI, hC, hH, hu1,
        eraseIssues_mapSet]
  · refine ⟨?_, ?_, ?_, ?_⟩ <;>
      simp [InMemoryIssueRepository.save, h0, hU, hI, hC, hH, eraseIssues_mapSet]

theorem saveEvent_rel (s₁ s₂ : Sys) (n₁ n₂ : Nat) (e₁ e₂ : Event) (hrel : SysRel s₁ s₂)
    (hid : e₁.id = e₂.id) :
    SysRel (InMemoryEventStore.saveEvent s₁ n₁ e₁).1
      (InMemoryEventStore.saveEvent s₂ n₂ e₂).1 := by
  obtain ⟨hI, hC, hU, hH⟩ := hrel
  by_cases h0 : e₁.id = "" <;>
    refine ⟨?_, ?_, ?_, ?_⟩ <;>
      simp [InMemoryEventStore.saveEvent, freshUuid, h0, ← hid, hI, hC, hU, hH]

theorem processIssueEvent_rel (s₁ s₂ : Sys) (n₁ n₂ : Nat) (ev : IssueEvent)
    (hrel : SysRel s₁ s₂) :
    SysRel (IssueService.processIssueEvent s₁ n₁ ev).1
      (IssueService.processIssueEvent s₂ n₂ ev).1 := by
  have hmap : (mapGet ev.id s₁.issues).map Issue.eraseU =
      (mapGet ev.id s₂.issues).map Issue.eraseU := by
    rw [← mapGet_eraseIssues, ← mapGet_eraseIssues, hrel.1]
  match h₁ : mapGet ev.id s₁.issues, h₂ : mapGet ev.id s₂.issues with
  | none, none =>
      have hf₁ : InMemoryIssueRepository.findById s₁ ev.id = none := by
        simp [InMemoryIssueRepository.findById, h₁]
      have hf₂ : InMemoryIssueRepository.findById s₂ ev.id = none := by
        simp [InMemoryIssueRepository.findById, h₂]
      have hrel' := save_rel s₁ s₂ (issueEventToIssue ev) hrel
      have hflag : (InMemoryIssueRepository.save s₁ (issueEventToIssue ev)).1.hasEventStore =
          (InMemoryIssueRepository.save s₂ (issueEventToIssue ev)).1.hasEventStore :=
        hrel'.2.2.2
      simp only [IssueService.processIssueEvent, hf₁, hf₂]
      by_cases hb : (InMemoryIssueRepository.save s₁ (issueEventToIssue ev)).1.hasEventStore
      · rw [if_pos hb, if_pos (hflag ▸ hb)]
        exact saveEvent_rel _ _ n₁ n₂ _ _ (freshUuid_rel _ _ hrel').1
          (by simpa using (freshUuid_rel _ _ hrel').2)
      · rw [if_neg hb, if_neg (hflag ▸ hb)]
        exact hrel'
  | none, some ex₂ => rw [h₁, h₂] at hmap; simp at hmap
  | some ex₁, none => rw [h₁, h₂] at hmap; simp at hmap
  | some ex₁, some ex₂ =>
      have hf₁ : InMemoryIssueRepository.findById s₁ ev.id =
          some { ex₁ with
                  comments :=
                    some ((mapValues s₁.comments).filter (fun c => c.issueId = ev.id)) } := by
        simp [InMemoryIssueRepository.findById, h₁]
      have hf₂ : InMemoryIssueRepository.findById s₂ ev.id =
          some { ex₂ with
                  comments :=
                    some ((mapValues s₂.comments).filter (fun c => c.issueId = ev.id)) } := by
        simp [InMemoryIssueRepository.findById, h₂]
      have hrel' := update_rel s₁ s₂ ev.id (IssueService.updPayload ev n₁)
        (IssueService.updPayload ev n₂) n₁ n₂ hrel rfl
      have hflag :
          (InMemoryIssueRepository.update s₁ ev.id (IssueService.updPayload ev n₁) n₁).1.hasEventStore =
          (InMemoryIssueRepository.update s₂ ev.id (IssueService.updPayload ev n₂) n₂).1.hasEventStore :=
        hrel'.2.2.2
      simp only [IssueService.processIssueEvent, hf₁, hf₂]
      by_cases hb :
        (InMemoryIssueRepository.update s₁ ev.id (IssueService.updPayload ev n₁) n₁).1.hasEventStore
      · rw [if_pos hb, if_pos (hflag ▸ hb)]
        exact saveEvent_rel _ _ n₁ n₂ _ _ (freshUuid_rel _ _ hrel').1
          (by simpa using (freshUuid_rel _ _ hrel').2)
      · rw [if_neg hb, if_neg (hflag ▸ hb)]
        exact hrel'

theorem addComment_rel (s₁ s₂ : Sys) (c : IssueComment) (hrel : SysRel s₁ s₂) :
    (∃ t₁ t₂ v, InMemoryIssueRepository.addComment s₁ c = (t₁, Except.ok v) ∧
      InMemoryIssueRepository.addComment s₂ c = (t₂, Except.ok v) ∧ SysRel t₁ t₂) ∨
    (∃ m t₁ t₂, InMemoryIssueRepository.addComment s₁ c = (t₁, Except.error m) ∧
      InMemoryIssueRepository.addComment s₂ c = (t₂, Except.error m)) := by
  obtain ⟨hI, hC, hU, hH⟩ := hrel
  have hu1 : (freshUuid s₁).1 = (freshUuid s₂).1 := by simp [freshUuid, hU]
  have hmap : (mapGet c.issueId s₁.issues).map Issue.eraseU =
      (mapGet c.issueId s₂.issues).map Issue.eraseU := by
    rw [← mapGet_eraseIssues, ← mapGet_eraseIssues, hI]
  match h₁ : mapGet c.issueId s₁.issues, h₂ : mapGet c.issueId s₂.issues with
  | none, none =>
      right
      by_cases h0 : c.id = ""
      · exact ⟨"Issue with ID " ++ c.issueId ++ " not found", (freshUuid s₁).2, (freshUuid s₂).2,
          by simp [InMemoryIssueRepository.addComment, h0, freshUuid, h₁],
          by simp [InMemoryIssueRepository.addComment, h0, freshUuid, h₂]⟩
      · exact ⟨"Issue with ID " ++ c.issueId ++ " not found", s₁, s₂,
          by simp [InMemoryIssueRepository.addComment, h0, h₁],
          by simp [InMemoryIssueRepository.addComment, h0, h₂]⟩
  | none, some ex₂ => rw [h₁, h₂] at hmap; simp at hmap
  | some ex₁, none => rw [h₁, h₂] at hmap; simp at hmap
  | some ex₁, some ex₂ =>
      left
      by_cases h0 : c.id = ""
      · refine ⟨{ s₁ with
            comments := mapSet (freshUuid s₁).1 { c with id := (freshUuid s₁).1 } s₁.comments
            uuidCtr := s₁.uuidCtr + 1 },
          { s₂ with
            comments := mapSet (freshUuid s₂).1 { c with id := (freshUuid s₂).1 } s₂.comments
            uuidCtr := s₂.uuidCtr + 1 },
          { c with id := (freshUuid s₁).1 }, ?_, ?_, ?_⟩
        · simp [InMemoryIssueRepository.addComment, h0, freshUuid, h₁]
        · rw [hu1]
          simp [InMemoryIssueRepository.addComment, h0, freshUuid, h₂]
        · exact ⟨hI, by simp [freshUuid, hC, hU], by simp [hU], hH⟩
      · refine ⟨{ s₁ with comments := mapSet c.id c s₁.comments },
          { s₂ with comments := mapSet c.id c s₂.comments }, c, ?_, ?_, ?_⟩
        · simp [InMemoryIssueRepository.addComment, h0, h₁]
        · simp [InMemoryIssueRepository.addComment, h0, h₂]
        · exact ⟨hI, by simp [hC], hU, hH⟩

theorem applyEvent_rel (s₁ s₂ : Sys) (n₁ n₂ : Nat) (e : Event) (hrel : SysRel s₁ s₂) :
    (∃ t₁ t₂, InMemoryEventStore.applyEvent s₁ n₁ e = Except.ok t₁ ∧
      InMemoryEventStore.applyEvent s₂ n₂ e = Except.ok t₂ ∧ SysRel t₁ t₂) ∨
    (∃ m, InMemoryEventStore.applyEvent s₁ n₁ e = Except.error m ∧
      InMemoryEventStore.applyEvent s₂ n₂ e = Except.error m) := by
  obtain ⟨eid, ebody, ets, eiid⟩ := e
  cases ebody with
  | created d =>
      exact Or.inl ⟨_, _, rfl, rfl, processIssueEvent_rel s₁ s₂ n₁ n₂ d hrel⟩
  | updated d =>
      exact Or.inl ⟨_, _, rfl, rfl, update_rel s₁ s₂ eiid d d n₁ n₂ hrel rfl⟩
  | analyzed d =>
      exact Or.inl ⟨_, _, rfl, rfl, update_rel s₁ s₂ eiid d d n₁ n₂ hrel rfl⟩
  | planned p =>
      exact Or.inl ⟨_, _, rfl, rfl,
        update_rel s₁ s₂ eiid { plan := some p } { plan := some p } n₁ n₂ hrel rfl⟩
  | commentAdded c =>
      rcases addComment_rel s₁ s₂ c hrel with
        ⟨t₁, t₂, v, ha₁, ha₂, hrel'⟩ | ⟨m, t₁, t₂, ha₁, ha₂⟩
      · refine Or.inl ⟨t₁, t₂, ?_, ?_, hrel'⟩
        · simp only [InMemoryEventStore.applyEvent, ha₁]
        · simp only [InMemoryEventStore.applyEvent, ha₂]
      · refine Or.inr ⟨m, ?_, ?_⟩
        · simp only [InMemoryEventStore.applyEvent, ha₁]
        · simp only [InMemoryEventStore.applyEvent, ha₂]
  | other ty =>
      exact Or.inl ⟨s₁, s₂, rfl, rfl, hrel⟩

theorem replayGo_rel (n₁ n₂ : Nat) :
    ∀ (l : List Event) (s₁ s₂ : Sys), SysRel s₁ s₂ →
      ∃ t₁ t₂, InMemoryEventStore.replayGo n₁ l s₁ = Except.ok t₁ ∧
        InMemoryEventStore.replayGo n₂ l s₂ = Except.ok t₂ ∧ SysRel t₁ t₂ := by
  intro l
  induction l with
  | nil => intro s₁ s₂ hrel; exact ⟨s₁, s₂, rfl, rfl, hrel⟩
  | cons e rest ih =>
      intro s₁ s₂ hrel
      rcases applyEvent_rel s₁ s₂ n₁ n₂ e hrel with
        ⟨u₁, u₂, ha₁, ha₂, hrel'⟩ | ⟨m, ha₁, ha₂⟩
      · obtain ⟨t₁, t₂, hg₁, hg₂, hrel''⟩ := ih u₁ u₂ hrel'
        exact ⟨t₁, t₂, by simp only [InMemoryEventStore.replayGo, ha₁]; exact hg₁,
          by simp only [InMemoryEventStore.replayGo, ha₂]; exact hg₂, hrel''⟩
      · obtain ⟨t₁, t₂, hg₁, hg₂, hrel''⟩ := ih s₁ s₂ hrel
        exact ⟨t₁, t₂, by simp only [InMemoryEventStore.replayGo, ha₁]; exact hg₁,
          by simp only [InMemoryEventStore.replayGo, ha₂]; exact hg₂, hrel''⟩

/-- C1 amended: replaying the same stored event sequence `E` into an empty
issue repository twice, at clock instants `n₁` and `n₂`, always succeeds and
yields aggregate states that are identical except for the `updatedAt` fields
of issues touched by update-based events, which carry the wall-clock instant
of each replay (`InMemoryIssueRepository.update` stamps `updatedAt` with the
current time); when both replays observe the same instant the resulting
states are fully identical. -/
theorem replay_agrees_up_to_updatedAt (E : List Event) (c : Nat) (b : Bool) (n₁ n₂ : Nat) :
    ∃ t₁ t₂,
      InMemoryEventStore.replayEvents
        { issues := [], comments := [], events := E, uuidCtr := c, hasEventStore := b } n₁ =
          Except.ok t₁ ∧
      InMemoryEventStore.replayEvents
        { issues := [], comments := [], events := E, uuidCtr := c, hasEventStore := b } n₂ =
          Except.ok t₂ ∧
      eraseIssues t₁.issues = eraseIssues t₂.issues ∧
      t₁.comments = t₂.comments ∧
      (n₁ = n₂ → t₁ = t₂) := by
  obtain ⟨t₁, t₂, h₁, h₂, hrel⟩ := replayGo_rel n₁ n₂
    (InMemoryEventStore.sortByTs E)
    { issues := [], comments := [], events := E, uuidCtr := c, hasEventStore := b }
    { issues := [], comments := [], events := E, uuidCtr := c, hasEventStore := b }
    ⟨rfl, rfl, rfl, rfl⟩
  refine ⟨t₁, t₂, h₁, h₂, hrel.1, hrel.2.1, ?_⟩
  intro hn
  subst hn
  have := h₁.symm.trans h₂
  exact Except.ok.inj this

/-- The stored `ISSUE_UPDATED` event used in the C1 counterexample. -/
def updatedEventA : Event :=
  { id := "e2", body := EventBody.updated { title := some "T2" }, timestamp := some 1
    issueId := "A" }

/-- A stored log creating and then updating issue `"A"`. -/
def twoEventSys : Sys :=
  { issues := [], comments := [], events := [createdEventA, updatedEventA], uuidCtr := 0
    hasEventStore := true }

/-- Counterexample to C1 as stated: replaying the same saved event sequence
into an empty issue repository twice does not produce identical aggregate
states including `updatedAt` — the two replays (at clock instants 100 and
200) store issue `"A"` with `updatedAt` 100 and 200 respectively, because
the repository stamps `updatedAt` with the wall-clock time of each replay. -/
theorem replay_clock_dependent :
    ((InMemoryEventStore.replayEvents twoEventSys 100).toOption.bind
        (fun t => mapGet "A" t.issues)).map Issue.updatedAt = some (some 100) ∧
    ((InMemoryEventStore.replayEvents twoEventSys 200).toOption.bind
        (fun t => mapGet "A" t.issues)).map Issue.updatedAt = some (some 200) ∧
    ((InMemoryEventStore.replayEvents twoEventSys 100).toOption.bind
        (fun t => mapGet "A" t.issues)).map Issue.updatedAt ≠
      ((InMemoryEventStore.replayEvents twoEventSys 200).toOption.bind
        (fun t => mapGet "A" t.issues)).map Issue.updatedAt := by
  refine ⟨rfl, rfl, ?_⟩
  intro h
  rw [show ((InMemoryEventStore.replayEvents twoEventSys 100).toOption.bind
      (fun t => mapGet "A" t.issues)).map Issue.updatedAt = some (some 100) from rfl] at h
  rw [show ((InMemoryEventStore.replayEvents twoEventSys 200).toOption.bind
      (fun t => mapGet "A" t.issues)).map Issue.updatedAt = some (some 200) from rfl] at h
  simp at h

/-! ### C7: replay resilience -/

/-- An event whose `type` string lies outside the closed enumeration. -/
def unknownEvent : Event :=
  { id := "u", body := EventBody.other "WEIRD_TYPE", timestamp := some 0, issueId := "Z" }

/-- A `COMMENT_ADDED` event referencing an issue `"B"` that never exists, so
applying it throws. -/
def orphanCommentEvent : Event :=
  { id := "e3"
    body := EventBody.commentAdded
      { id := "c1", issueId := "B", content := "hi", author := "x", createdAt := 2 }
    timestamp := some 2
    issueId := "B" }

/-- An `ISSUE_ANALYZED` event for issue `"A"`. -/
def analyzedEventA : Event :=
  { id := "e4"
    body := EventBody.analyzed
      { labels := some ["bug"], assignedTo := some "dev", confidence := some 1
        priority := some (some Priority.high), updatedAt := some 3 }
    timestamp := some 3
    issueId := "A" }

/-- A log interleaving an unknown-type event and a throwing comment event
with a valid Created/Analyzed pair for issue `"A"`. -/
def mixedSys : Sys :=
  { issues := [], comments := []
    events := [unknownEvent, createdEventA, orphanCommentEvent, analyzedEventA]
    uuidCtr := 0, hasEventStore := true }

/-- C7: replay always completes without throwing — every per-event failure
is caught inside the loop — and each failing or unknown event is skipped
individually while the applicable events are applied.  Concretely: in
`mixedSys` the comment event for nonexistent issue `"B"` genuinely fails in
`applyEvent` (third conjunct), yet replay succeeds, the Created/Analyzed
pair for `"A"` is fully applied, and no comment for `"B"` is stored. -/
theorem replay_resilience :
    (∀ (s : Sys) (now : Nat), ∃ t, InMemoryEventStore.replayEvents s now = Except.ok t) ∧
    (InMemoryEventStore.replayEvents mixedSys 50).toOption.map (fun t =>
        ((mapGet "A" t.issues).map (fun i => (i.labels, i.assignedTo, i.priority)),
          InMemoryIssueRepository.findCommentsByIssueId t "B")) =
      some (some (some ["bug"], some "dev", some Priority.high), []) ∧
    InMemoryEventStore.applyEvent mixedSys 50 orphanCommentEvent =
      Except.error "Issue with ID B not found" := by
  refine ⟨?_, rfl, rfl⟩
  intro s now
  exact replayGo_ok now (InMemoryEventStore.sortByTs s.events) s

/-! ### C9: comment ordering under replay application -/

/-- C9: applying `COMMENT_ADDED` events for the same issue id `X` (distinct,
fresh comment ids) in log order during replay appends each comment to the
comment map in turn, so the comments collection subsequently returned for
`X` lists the new comments in exactly the order the events were applied
(after any comments `X` already had).  The issue map is untouched. -/
theorem comment_ordering (now : Nat) :
    ∀ (es : List Event) (cs : List IssueComment) (s : Sys) (X : String),
      es.map Event.body = cs.map EventBody.commentAdded →
      (mapGet X s.issues).isSome = true →
      (∀ c ∈ cs, c.issueId = X ∧ c.id ≠ "" ∧ mapGet c.id s.comments = none) →
      (cs.map IssueComment.id).Nodup →
      ∃ t, InMemoryEventStore.replayGo now es s = Except.ok t ∧
        InMemoryIssueRepository.findCommentsByIssueId t X =
          InMemoryIssueRepository.findCommentsByIssueId s X ++ cs ∧
        t.issues = s.issues := by
  intro es
  induction es with
  | nil =>
      intro cs s X hbodies _ _ _
      have hcs : cs = [] := by
        cases cs with
        | nil => rfl
        | cons c cs' => simp at hbodies
      subst hcs
      exact ⟨s, rfl, by simp, rfl⟩
  | cons e rest ih =>
      intro cs s X hbodies hX hfresh hnd
      match cs with
      | [] => simp at hbodies
      | c :: cs' =>
          simp only [List.map_cons, List.cons.injEq] at hbodies
          obtain ⟨hbody, hbodies'⟩ := hbodies
          obtain ⟨hcX, hcid, hcfresh⟩ := hfresh c (by simp)
          obtain ⟨ex, hex⟩ := Option.isSome_iff_exists.mp hX
          have happly : InMemoryEventStore.applyEvent s now e =
              Except.ok { s with comments := mapSet c.id c s.comments } := by
            simp only [InMemoryEventStore.applyEvent, hbody]
            simp [InMemoryIssueRepository.addComment, hcid, hcX, hex]
          have hs1X : (mapGet X ({ s with comments := mapSet c.id c s.comments} : Sys).issues).isSome
              = true := hX
          have hfresh' : ∀ c' ∈ cs',
              c'.issueId = X ∧ c'.id ≠ "" ∧
              mapGet c'.id ({ s with comments := mapSet c.id c s.comments } : Sys).comments
                = none := by
            intro c' hc'
            obtain ⟨h1, h2, h3⟩ := hfresh c' (by simp [hc'])
            refine ⟨h1, h2, ?_⟩
            have hne : c'.id ≠ c.id := by
              intro heq
              have : c.id ∈ cs'.map IssueComment.id := by
                rw [← heq]
                exact List.mem_map_of_mem IssueComment.id hc'
              simp only [List.map_cons, List.nodup_cons] at hnd
              exact hnd.1 (by simpa [heq] using this)
            simpa [mapGet_mapSet_ne c.id c'.id c s.comments hne] using h3
          have hnd' : (cs'.map IssueComment.id).Nodup := by
            simp only [List.map_cons, List.nodup_cons] at hnd
            exact hnd.2
          obtain ⟨t, hgo, hfind, hiss⟩ :=
            ih cs' { s with comments := mapSet c.id c s.comments } X hbodies' hs1X hfresh' hnd'
          refine ⟨t, ?_, ?_, ?_⟩
          · simp only [InMemoryEventStore.replayGo, happly]
            exact hgo
          · rw [hfind]
            have hstep : InMemoryIssueRepository.findCommentsByIssueId
                ({ s with comments := mapSet c.id c s.comments } : Sys) X =
                InMemoryIssueRepository.findCommentsByIssueId s X ++ [c] := by
              simp only [InMemoryIssueRepository.findCommentsByIssueId]
              rw [mapValues_mapSet_fresh c.id c s.comments hcfresh]
              rw [List.filter_append]
              simp [hcX]
            rw [hstep, List.append_assoc]
            rfl
          · exact hiss

/-- Two comments for issue `"A"` with distinct fresh ids. -/
def commentOne : IssueComment :=
  { id := "c1", issueId := "A", content := "first", author := "u1", createdAt := 1 }

/-- Second comment fixture for the ordering witness. -/
def commentTwo : IssueComment :=
  { id := "c2", issueId := "A", content := "second", author := "u2", createdAt := 2 }

/-- The comment events wrapping `commentOne` and `commentTwo`. -/
def commentEvents : List Event :=
  [{ id := "x1", body := EventBody.commentAdded commentOne, timestamp := some 1
     issueId := "A" },
   { id := "x2", body := EventBody.commentAdded commentTwo, timestamp := some 2
     issueId := "A" }]

/-- Witness for `comment_ordering`: applying the two comment events to
`sampleSys` in order stores `[commentOne, commentTwo]` for issue `"A"`. -/
theorem comment_ordering_witness :
    (mapGet "A" sampleSys.issues).isSome = true ∧
    (∃ t, InMemoryEventStore.replayGo 9 commentEvents sampleSys = Except.ok t ∧
      InMemoryIssueRepository.findCommentsByIssueId t "A" =
        InMemoryIssueRepository.findCommentsByIssueId sampleSys "A" ++
          [commentOne, commentTwo] ∧
      t.issues = sampleSys.issues) := by
  refine ⟨by decide, comment_ordering 9 commentEvents [commentOne, commentTwo] sampleSys "A"
    rfl (by decide) ?_ (by decide)⟩
  intro c hc
  fin_cases hc <;> exact ⟨rfl, by decide, rfl⟩

/-! ### C8: not-found policy of the service operations -/

/-- C8: for an id absent from the issue repository, `IssueService.analyzeIssue`
and `IssueService.planIssue` return `null` without throwing, leave the state
untouched and never invoke the external LLM client (invocation count 0),
while `IssueService.addComment` throws a descriptive error naming the missing
id and leaves the whole state — in particular the comment store — unchanged. -/
theorem notFound_policy (s : Sys) (now : Nat) (llmA : Except String LLMAnalysisResponse)
    (llmP : Except String LLMIssuePlanResponse) (id content author : String)
    (h : mapGet id s.issues = none) :
    IssueService.analyzeIssue s now llmA id = (s, Except.ok none, 0) ∧
    IssueService.planIssue s now llmP id = (s, Except.ok none, 0) ∧
    IssueService.addComment s now id content author =
      (s, Except.error ("Issue with ID " ++ id ++ " not found")) ∧
    (IssueService.addComment s now id content author).1.comments = s.comments := by
  refine ⟨?_, ?_, ?_, ?_⟩ <;>
    simp [IssueService.analyzeIssue, IssueService.planIssue, IssueService.addComment,
      InMemoryIssueRepository.findById, h]

/-- Witness for `notFound_policy` at a concrete store that does not contain
issue `"missing"`. -/
theorem notFound_policy_witness :
    mapGet "missing" ([] : List (String × Issue)) = none ∧
    IssueService.addComment
        { issues := [], comments := [], events := [], uuidCtr := 0, hasEventStore := true }
        5 "missing" "hello" "alice" =
      ({ issues := [], comments := [], events := [], uuidCtr := 0, hasEventStore := true },
        Except.error "Issue with ID missing not found") := by
  refine ⟨rfl, ?_⟩
  have h := (notFound_policy
    { issues := [], comments := [], events := [], uuidCtr := 0, hasEventStore := true }
    5 (Except.error "x") (Except.error "x") "missing" "hello" "alice" rfl).2.2.1
  simpa using h

end IssuesPlanner
